import Mathlib

/-!
Shallow embedding of the rustfst core under verification:
`algorithms/shortest_distance.rs`, `algorithms/compose_revamp.rs` and
`algorithms/compose_filters/alt_sequence_compose_filter.rs`.

Machine integers of the source (`usize` state ids and labels) are modelled
as `Nat`; semiring weights are an abstract type `W` with an explicit
operation table (`SRing`); fallible Rust code returns `Except String`.
Collaborator contracts that live outside the provided sources (queue
disciplines, the state table, the integer semiring, the label sentinel)
are modelled from the spec and marked as such in their doc comments.
-/

/-- Model of `Arc`: `(input_label, output_label, weight, destination_state)` as in
`rustfst::Arc`. Labels and state ids are `usize` in the source, `Nat` here. -/
structure Arc (W : Type) where
  ilabel : Nat
  olabel : Nat
  weight : W
  nextstate : Nat
deriving DecidableEq, Repr

/-- Modelled from the spec: label 0 is reserved for epsilon (no-symbol). -/
def EPS_LABEL : Nat := 0

/-- Modelled from the spec: the sentinel "no label" value (`NO_LABEL`,
`usize::MAX` in the source crate, whose defining module is not among the
provided files), distinct from epsilon and denoting "no arc to match". -/
def NO_LABEL : Nat := 18446744073709551615

/-- The declared property set of a semiring, mirroring
`SemiringProperties` (`RIGHT_SEMIRING`, `PATH`, ... bit flags). -/
structure SemiringProperties where
  leftSemiring : Bool
  rightSemiring : Bool
  commutative : Bool
  idempotent : Bool
  path : Bool
deriving DecidableEq, Repr

/-- Operation table of a `Semiring` instance: `zero`, `one`, `plus`,
`times` and the declared property set. The algorithms under study never
assume algebraic laws beyond what they query through `props`. -/
structure SRing (W : Type) where
  zero : W
  one : W
  plus : W → W → W
  times : W → W → W
  props : SemiringProperties

/-- Modelled from the spec and the doctest of `shortest_distance`:
`IntegerWeight`, with `plus = +`, `times = ×`, `one = 1`, `zero = 0`,
declaring both semiring sides but not the path property. -/
def intSr : SRing Int :=
  { zero := 0, one := 1, plus := (· + ·), times := (· * ·),
    props := { leftSemiring := true, rightSemiring := true,
               commutative := true, idempotent := false, path := false } }

/-- The automaton-view contract consumed by the algorithms (§6 of the spec,
backed by `fst_traits`): a start state, per-state outgoing arcs and an
optional final weight. `arcs` models `arcs_iter` on valid states. -/
structure FstM (W : Type) where
  start : Option Nat
  arcs : Nat → List (Arc W)
  finalWeight : Nat → Option W

/-- Model of `CoreFst::is_final`: a state is final iff it carries a final weight. -/
def FstM.is_final (fst : FstM W) (s : Nat) : Bool :=
  (fst.finalWeight s).isSome

/-- The `Queue` discipline contract: `enqueue`, `head`/`dequeue`, `update`,
`is_empty`, `clear`, over an abstract queue representation `Q`. -/
structure QueueOps (Q : Type) where
  enqueue : Q → Nat → Q
  head : Q → Option Nat
  dequeue : Q → Q
  update : Q → Nat → Q
  isEmpty : Q → Bool
  clear : Q → Q

/-- A queue-discipline operation, recorded for analysis of which discipline
calls the engine makes; `deq s` records that `s` was at the head when a
dequeue happened. -/
inductive QOp where
  | enq (s : Nat)
  | upd (s : Nat)
  | deq (s : Nat)
deriving DecidableEq, Repr

/-- Modelled from the spec: a FIFO discipline (the discipline the
auto-selection uses for acyclic inputs), instrumented to log every
`enqueue`/`update` call it receives. -/
structure LogFifo where
  items : List Nat
  ops : List QOp
deriving DecidableEq, Repr

/-- The `QueueOps` table of `LogFifo`. -/
def logFifoOps : QueueOps LogFifo :=
  { enqueue := fun q s => { items := q.items ++ [s], ops := q.ops ++ [QOp.enq s] }
    head := fun q => q.items.head?
    dequeue := fun q =>
      { items := q.items.tail
        ops := q.ops ++ ((q.items.head?.map (fun s => [QOp.deq s])).getD []) }
    update := fun q s => { q with ops := q.ops ++ [QOp.upd s] }
    isEmpty := fun q => q.items.isEmpty
    clear := fun q => { q with items := [] } }

/-- The empty `LogFifo`. -/
def emptyFifo : LogFifo := { items := [], ops := [] }

/-- Grow a list with copies of `v` until position `index` exists; models the
`while len <= index: push` loops of `ensure_distance_index_is_valid` and
`ensure_sources_index_is_valid`. -/
def ensureLen (l : List α) (index : Nat) (v : α) : List α :=
  l ++ List.replicate (index + 1 - l.length) v

/-- The mutable fields of `ShortestDistanceState` (minus the borrowed fst,
queue and arc filter, which are passed separately): the bookkeeping arrays,
the retained-mode source tags, the current run id and the two mode flags. -/
structure SdState (W : Type) where
  enqueued : List Bool
  distance : List W
  adder : List W
  radder : List W
  sources : List (Option Nat)
  source_id : Nat
  retain : Bool
  first_path : Bool
deriving Repr

/-- Model of `ShortestDistanceState::new` with empty arrays and `source_id = 0`. -/
def SdState.new (retain first_path : Bool) : SdState W :=
  { enqueued := [], distance := [], adder := [], radder := [],
    sources := [], source_id := 0, retain := retain, first_path := first_path }

/-- Model of `ensure_distance_index_is_valid`: extend `distance`, `enqueued`,
`adder`, `radder` with `zero` / `false` up to `index`. -/
def ensure_distance_index_is_valid (sr : SRing W) (st : SdState W) (index : Nat) :
    SdState W :=
  { st with
    distance := ensureLen st.distance index sr.zero
    enqueued := ensureLen st.enqueued index false
    adder := ensureLen st.adder index sr.zero
    radder := ensureLen st.radder index sr.zero }

/-- Model of `ensure_sources_index_is_valid`: extend `sources` with `None`. -/
def ensure_sources_index_is_valid (st : SdState W) (index : Nat) : SdState W :=
  { st with sources := ensureLen st.sources index none }

/-- The `if !self.retain { ... }` block at the head of `shortest_distance`:
outside retained mode all four bookkeeping arrays are cleared before a run;
in retained mode they are kept. -/
def clearIfNotRetain (st : SdState W) : SdState W :=
  if !st.retain then
    { st with distance := [], adder := [], radder := [], enqueued := [] }
  else st

/-- The retained-mode lazy reset applied to `nextstate` inside the arc loop
(`if self.retain { ... }`): extend `sources`, and when the per-state tag is
not the current run's `source_id`, zero that state's four array entries and
tag it; a state already tagged with the current run is left untouched. -/
def touchRetained (sr : SRing W) (st : SdState W) (nextstate : Nat) : SdState W :=
  if st.retain then
    let st := ensure_sources_index_is_valid st nextstate
    if st.sources.getD nextstate none ≠ some st.source_id then
      { st with
        distance := st.distance.set nextstate sr.zero
        adder := st.adder.set nextstate sr.zero
        radder := st.radder.set nextstate sr.zero
        enqueued := st.enqueued.set nextstate false
        sources := st.sources.set nextstate (some st.source_id) }
    else st
  else st

/-- The body of the arc loop of `shortest_distance` (lines 141-171 of
`shortest_distance.rs`) for one arc of the dequeued `state`, with `r` the
folded `radder` mass. Note that the enqueue-versus-update branch tests
`enqueued[state]`, exactly as the source does. -/
def relaxArc [DecidableEq W] (sr : SRing W) (qo : QueueOps Q)
    (arc_filter : Arc W → Bool) (state : Nat) (r : W)
    (acc : SdState W × Q) (arc : Arc W) : SdState W × Q :=
  let st := acc.1
  let q := acc.2
  let nextstate := arc.nextstate
  if !arc_filter arc then (st, q)
  else
    let st := ensure_distance_index_is_valid sr st nextstate
    let st := touchRetained sr st nextstate
    let nd := st.distance.getD nextstate sr.zero
    let na := st.adder.getD nextstate sr.zero
    let nr := st.radder.getD nextstate sr.zero
    let weight := sr.times r arc.weight
    if nd ≠ sr.plus nd weight then
      let na := sr.plus na weight
      let st := { st with
        adder := st.adder.set nextstate na
        distance := st.distance.set nextstate na
        radder := st.radder.set nextstate (sr.plus nr weight) }
      if !(st.enqueued.getD state false) then
        ({ st with enqueued := st.enqueued.set nextstate true }, qo.enqueue q nextstate)
      else
        (st, qo.update q nextstate)
    else (st, q)

/-- The main `while !queue.is_empty()` loop of `shortest_distance`, with
explicit fuel (the source's termination relies on the semiring/queue
combination; concrete runs below are given ample fuel). -/
def sdLoop [DecidableEq W] (sr : SRing W) (qo : QueueOps Q) (fst : FstM W)
    (arc_filter : Arc W → Bool) : Nat → SdState W → Q → SdState W × Q
  | 0, st, q => (st, q)
  | fuel + 1, st, q =>
    if qo.isEmpty q then (st, q)
    else
      let state := (qo.head q).getD 0
      let q := qo.dequeue q
      let st := ensure_distance_index_is_valid sr st state
      if st.first_path && fst.is_final state then (st, q)
      else
        let st := { st with enqueued := st.enqueued.set state false }
        let r := st.radder.getD state sr.zero
        let st := { st with radder := st.radder.set state sr.zero }
        let acc := (fst.arcs state).foldl (relaxArc sr qo arc_filter state r) (st, q)
        sdLoop sr qo fst arc_filter fuel acc.1 acc.2

/-- Model of `ShortestDistanceState::shortest_distance`: the early `Ok(vec![])`
return when the fst has no start state, then the two algebraic
precondition checks (`bail!`), then queue clearing, array
clearing/initialization, the relaxation loop, the `source_id` bump and the
returned `distance` clone. Returns the distance vector together with the
post-run engine and queue state. -/
def shortest_distance_state [DecidableEq W] (sr : SRing W) (qo : QueueOps Q)
    (fst : FstM W) (arc_filter : Arc W → Bool) (fuel : Nat)
    (st : SdState W) (q : Q) (source : Option Nat) :
    Except String (List W × SdState W × Q) :=
  match fst.start with
  | none => Except.ok ([], st, q)
  | some start_state =>
    if !sr.props.rightSemiring then
      Except.error "ShortestDistance: Weight needs to be right distributive"
    else if st.first_path && !sr.props.path then
      Except.error "ShortestDistance: The first_path option is disallowed when Weight does not have the path property"
    else
      let q := qo.clear q
      let st := clearIfNotRetain st
      let source := source.getD start_state
      let st := ensure_distance_index_is_valid sr st source
      let st :=
        if st.retain then
          let st := ensure_sources_index_is_valid st source
          { st with sources := st.sources.set source (some st.source_id) }
        else st
      let st := { st with
        distance := st.distance.set source sr.one
        adder := st.adder.set source sr.one
        radder := st.radder.set source sr.one
        enqueued := st.enqueued.set source true }
      let q := qo.enqueue q source
      let p := sdLoop sr qo fst arc_filter fuel st q
      let st := { p.1 with source_id := p.1.source_id + 1 }
      Except.ok (st.distance, st, p.2)

/-- Model of `shortest_distance_with_config` followed by the forward branch of the
top-level `shortest_distance(fst, false)`: a fresh non-retained engine with
`first_path` off, an accept-all arc filter and a queue discipline instance;
only the distance vector is returned. -/
def shortest_distance [DecidableEq W] (sr : SRing W) (qo : QueueOps Q)
    (q0 : Q) (fst : FstM W) (fuel : Nat) : Except String (List W) :=
  match shortest_distance_state sr qo fst (fun _ => true) fuel
      (SdState.new false false) q0 none with
  | Except.ok p => Except.ok p.1
  | Except.error e => Except.error e

/-- Modelled from the spec (the defining `filter_states.rs` is not among
the provided files): a `CharFilterState` is a single small integer with a
distinguished invalid marker; `new c` wraps the integer. -/
inductive CharFilterState where
  | invalid
  | valid (c : Nat)
deriving DecidableEq, Repr

/-- Model of `CharFilterState::new`. -/
def CharFilterState.new (c : Nat) : CharFilterState := CharFilterState.valid c

/-- The mutable context of `AltSequenceComposeFilter` (minus the borrowed
`fst2` and the owned matchers, passed separately where needed): the current
`(s1, s2, fs)` context and the two derived booleans `alleps2`, `noeps2`. -/
structure AltSeqFilter where
  s1 : Nat
  s2 : Nat
  fs : CharFilterState
  alleps2 : Bool
  noeps2 : Bool
deriving DecidableEq, Repr

/-- Model of `CoreFst::num_arcs`. -/
def FstM.num_arcs (fst : FstM W) (s : Nat) : Nat := (fst.arcs s).length

/-- Model of `CoreFst::num_output_epsilons`: outgoing arcs whose output label is
epsilon. -/
def FstM.num_output_epsilons (fst : FstM W) (s : Nat) : Nat :=
  ((fst.arcs s).filter (fun a => a.olabel = EPS_LABEL)).length

/-- Model of `AltSequenceComposeFilter::start`. -/
def AltSeqFilter.start : CharFilterState := CharFilterState.new 0

/-- Model of `AltSequenceComposeFilter::set_state`: a no-op when the recorded
`(s1, s2, fs)` context is unchanged; otherwise records the new context and
recomputes `alleps2 = (num_arcs == num_output_epsilons && !is_final)` and
`noeps2 = (num_output_epsilons == 0)` from `fst2` at `s2`. -/
def set_state (fst2 : FstM W) (f : AltSeqFilter) (s1 s2 : Nat)
    (filter_state : CharFilterState) : AltSeqFilter :=
  if !(f.s1 = s1 && f.s2 = s2 && f.fs = filter_state) then
    let na2 := fst2.num_arcs s2
    let ne2 := fst2.num_output_epsilons s2
    let fin2 := fst2.is_final s2
    { s1 := s1, s2 := s2, fs := filter_state,
      alleps2 := na2 = ne2 && !fin2, noeps2 := ne2 = 0 }
  else f

/-- Model of `AltSequenceComposeFilter::filter_arc`: the alternating-sequence
epsilon-disambiguation policy over a candidate arc pair, returning `none`
for reject or the next filter state. -/
def filter_arc (f : AltSeqFilter) (arc1 : Arc W) (arc2 : Arc W) :
    Option CharFilterState :=
  if arc1.olabel = NO_LABEL then
    if f.alleps2 then none
    else if f.noeps2 then some (CharFilterState.new 0)
    else some (CharFilterState.new 1)
  else if arc2.ilabel = NO_LABEL then
    if f.fs ≠ CharFilterState.new 0 then none
    else some (CharFilterState.new 0)
  else
    if arc1.olabel = EPS_LABEL then none
    else some (CharFilterState.new 0)

/-- The filter policy exactly as the spec words it, written independently
of `filter_arc` for the refinement comparison: a left-only epsilon move
rejects on an all-epsilon right state, otherwise lands in state 0 or 1
according to `noeps2`; a right-only epsilon move is accepted into state 0
precisely from filter state 0; a matched pair rejects exactly on an
epsilon output label of the left arc and otherwise resets to state 0. -/
def specAltSequencePolicy (f : AltSeqFilter) (arc1 : Arc W) (arc2 : Arc W) :
    Option CharFilterState :=
  if arc1.olabel = NO_LABEL then
    if f.alleps2 then none
    else if f.noeps2 then some (CharFilterState.valid 0)
    else some (CharFilterState.valid 1)
  else if arc2.ilabel = NO_LABEL then
    if f.fs = CharFilterState.valid 0 then some (CharFilterState.valid 0)
    else none
  else if arc1.olabel = EPS_LABEL then none
  else some (CharFilterState.valid 0)

/-- Model of `ComposeStateTuple`: `(filter_state, s1, s2)`, the identity of a
product state before it receives an output id. -/
structure ComposeStateTuple (FS : Type) where
  fs : FS
  s1 : Nat
  s2 : Nat
deriving DecidableEq, Repr

/-- Position of the first occurrence of `t` in `table`, if any. -/
def tupleIndex [DecidableEq α] (table : List α) (t : α) : Option Nat :=
  match table with
  | [] => none
  | x :: xs => if x = t then some 0 else (tupleIndex xs t).map (· + 1)

/-- Modelled from the spec (the defining `cache.rs` is not among the
provided files): `StateTable::find_id` over an append-only table of
tuples — the id of the first earlier occurrence when the tuple was already
seen, else a fresh id (`length`) with the tuple appended. -/
def find_id [DecidableEq FS] (table : List (ComposeStateTuple FS))
    (t : ComposeStateTuple FS) : Nat × List (ComposeStateTuple FS) :=
  match tupleIndex table t with
  | some i => (i, table)
  | none => (table.length, table ++ [t])

/-- The product-automaton store owned by `ComposeFstImpl`: the state table
and the per-state cached arc lists (`CacheImpl`, modelled from the spec as
the defining `cache.rs` is not among the provided files; `push_arc s arc`
appends to state `s`'s list). -/
structure ComposeImplState (W FS : Type) where
  state_table : List (ComposeStateTuple FS)
  cache : List (List (Arc W))
deriving Repr

/-- Model of `CacheImpl::push_arc`: append `arc` to the cached arc list of state
`s` (the expanding state's list exists by the time arcs are pushed). -/
def push_arc (cache : List (List (Arc W))) (s : Nat) (arc : Arc W) :
    List (List (Arc W)) :=
  cache.set s (cache.getD s [] ++ [arc])

/-- Model of `ComposeFstImpl::add_arc`: forms the tuple
`(fs, arc1.nextstate, arc2.nextstate)`, multiplies the weights
(`arc1.weight.times_assign(arc2.weight)`, left-then-right), and pushes
`Arc(arc1.ilabel, arc2.olabel, product, find_id(tuple))` onto state `s`'s
cache. -/
def add_arc [DecidableEq FS] (sr : SRing W) (cs : ComposeImplState W FS)
    (s : Nat) (arc1 : Arc W) (arc2 : Arc W) (fs : FS) : ComposeImplState W FS :=
  let tuple : ComposeStateTuple FS := { fs := fs, s1 := arc1.nextstate, s2 := arc2.nextstate }
  let w := sr.times arc1.weight arc2.weight
  let p := find_id cs.state_table tuple
  { state_table := p.2
    cache := push_arc cs.cache s (Arc.mk arc1.ilabel arc2.olabel w p.1) }

/-- Model of `ComposeFstImpl::match_arc`: looks up partner candidates through
`matchera.iter(sa, label)` with `label` the driving arc's complementary
label, then — exactly as the source does — immediately shadows the
iteration's arc with two clones of the driving `arc` before passing the
pair to `filterArc` and, on acceptance, to `add_arc` (argument order
depending on `match_input`). -/
def match_arc [DecidableEq FS] (sr : SRing W)
    (filterArc : Arc W → Arc W → Option FS)
    (matcher_iter : Nat → Nat → List (Arc W))
    (cs : ComposeImplState W FS) (s sa : Nat) (arc : Arc W)
    (match_input : Bool) : ComposeImplState W FS :=
  let label := if match_input then arc.olabel else arc.ilabel
  (matcher_iter sa label).foldl
    (fun cs _arca =>
      let arca := arc
      let arcb := arc
      if match_input then
        match filterArc arcb arca with
        | some fs => add_arc sr cs s arcb arca fs
        | none => cs
      else
        match filterArc arca arcb with
        | some fs => add_arc sr cs s arca arcb fs
        | none => cs)
    cs

/-- Model of `ComposeFstImpl::compute_start`: `None` when either input automaton
lacks a start state; otherwise the id `find_id` assigns to the tuple
`(filter.start(), start1, start2)`, with the possibly-grown table. -/
def compute_start [DecidableEq FS] (filter_start : FS)
    (start1 start2 : Option Nat) (table : List (ComposeStateTuple FS)) :
    Option Nat × List (ComposeStateTuple FS) :=
  match start1 with
  | none => (none, table)
  | some s1 =>
    match start2 with
    | none => (none, table)
    | some s2 =>
      let p := find_id table { fs := filter_start, s1 := s1, s2 := s2 }
      (some p.1, p.2)

/-- Model of `ComposeFstImpl::compute_final`: looks up the product state's tuple
(outer `none` models the `find_tuple` failure on an unallocated id), reads
both sides' final weights through the matcher passthroughs, returns
non-final as soon as either is absent, and otherwise the left-then-right
product of the two weights after the `filter_final` adjustment. -/
def compute_final [DecidableEq FS] (sr : SRing W)
    (filter_final : W → W → W × W)
    (final1 final2 : Nat → Option W)
    (table : List (ComposeStateTuple FS)) (state : Nat) :
    Option (Option W) :=
  match table.get? state with
  | none => none
  | some tuple =>
    match final1 tuple.s1 with
    | none => some none
    | some f1 =>
      match final2 tuple.s2 with
      | none => some none
      | some f2 =>
        let p := filter_final f1 f2
        some (some (sr.times p.1 p.2))

/- ---- helper lemmas ---- -/

theorem tupleIndex_get [DecidableEq α] (l : List α) (t : α) (i : Nat)
    (h : tupleIndex l t = some i) : l.get? i = some t := by
  induction l generalizing i with
  | nil => simp [tupleIndex] at h
  | cons x xs ih =>
    rw [tupleIndex] at h
    by_cases hp : x = t
    · simp [hp] at h
      subst h
      simp [hp]
    · simp [hp] at h
      obtain ⟨j, hj, hji⟩ := h
      subst hji
      simpa using ih j hj

theorem tupleIndex_ne_none [DecidableEq α] (l : List α) (t : α) (h : t ∈ l) :
    tupleIndex l t ≠ none := by
  induction l with
  | nil => simp at h
  | cons x xs ih =>
    rw [tupleIndex]
    by_cases hp : x = t
    · simp [hp]
    · rcases List.mem_cons.mp h with h1 | h2
      · exact absurd h1.symm hp
      · simp only [hp, if_false, ne_eq, Option.map_eq_none']
        exact ih h2

theorem ensureLen_of_lt (l : List α) (i : Nat) (v : α) (h : i < l.length) :
    ensureLen l i v = l := by
  unfold ensureLen
  rw [Nat.sub_eq_zero_of_le h, List.replicate_zero, List.append_nil]

theorem lt_ensureLen_length (l : List α) (i : Nat) (v : α) :
    i < (ensureLen l i v).length := by
  unfold ensureLen
  rw [List.length_append, List.length_replicate]
  omega

theorem getD_eq_of_ge (l : List α) (i : Nat) (d : α) (h : l.length ≤ i) :
    l.getD i d = d := by
  rw [List.getD, List.get?_eq_getElem?, List.getElem?_eq_none h]
  rfl

theorem ensureLen_getD (l : List α) (i : Nat) (v : α) :
    (ensureLen l i v).getD i v = l.getD i v := by
  by_cases h : i < l.length
  · rw [ensureLen_of_lt l i v h]
  · push_neg at h
    rw [getD_eq_of_ge l i v h]
    unfold ensureLen
    rw [List.getD, List.get?_eq_getElem?, List.getElem?_append_right h,
      List.getElem?_replicate]
    have : i - l.length < i + 1 - l.length := by omega
    simp [this]

theorem getD_set_self (l : List α) (i : Nat) (a d : α) (h : i < l.length) :
    (l.set i a).getD i d = a := by
  simp [List.getD, List.getElem?_set, h]

/- ---- concrete instances used by the theorems below ---- -/

/-- The 3-state worked example of the spec and of the doctest of
`shortest_distance`: `s0→s1` weight 18, `s0→s2` weight 21, `s1→s2`
weight 55, no final states. -/
def fst3 : FstM Int :=
  { start := some 0
    arcs := fun s =>
      if s = 0 then [Arc.mk 32 23 18 1, Arc.mk 32 23 21 2]
      else if s = 1 then [Arc.mk 32 23 55 2]
      else []
    finalWeight := fun _ => none }

/-- A 3-state diamond (`0→1`, `0→2`, `1→2`, all weight 1) on which state 2
is relaxed a second time while it is still pending in the queue. -/
def fstB : FstM Int :=
  { start := some 0
    arcs := fun s =>
      if s = 0 then [Arc.mk 1 1 1 1, Arc.mk 1 1 1 2]
      else if s = 1 then [Arc.mk 1 1 1 2]
      else []
    finalWeight := fun _ => none }

/-- An automaton with no start state. -/
def noStartFst : FstM Int :=
  { start := none, arcs := fun _ => [], finalWeight := fun _ => none }

/-- An integer weight whose declared property set is empty: in particular
neither the right-semiring nor the path property. -/
def badSr : SRing Int :=
  { zero := 0, one := 1, plus := (· + ·), times := (· * ·),
    props := { leftSemiring := false, rightSemiring := false,
               commutative := false, idempotent := false, path := false } }

/-- A retained-mode engine state mid-way through a second run (run id 1),
whose state 0 still carries data tagged by run 0. -/
def st7 : SdState Int :=
  { enqueued := [true], distance := [5], adder := [5], radder := [5],
    sources := [some 0], source_id := 1, retain := true, first_path := false }

/- ---- C5 ---- -/

/-- C5: on the worked 3-state example under the integer semiring, the
forward shortest distance is `[1, 18, 1011]` with `1011 = 21 + 18×55`. -/
theorem C5_worked_example :
    shortest_distance intSr logFifoOps emptyFifo fst3 10 =
      Except.ok [1, 18, 1011] := by rfl

/- ---- C10 ---- -/

/-- C10: when the input automaton has no start state, `shortest_distance`
returns `Ok` with the empty distance vector for every configuration —
any semiring property set and any `first_path` flag — because the early
return precedes the algebraic precondition checks; the engine and queue
state are left untouched. -/
theorem C10_no_start_early_ok [DecidableEq W] (sr : SRing W) (qo : QueueOps Q)
    (fst : FstM W) (af : Arc W → Bool) (fuel : Nat) (st : SdState W) (q : Q)
    (source : Option Nat) (h : fst.start = none) :
    shortest_distance_state sr qo fst af fuel st q source =
      Except.ok ([], st, q) := by
  simp only [shortest_distance_state, h]

/-- Witness for C10 at a concrete no-start automaton, with a semiring
declaring neither the right-semiring nor the path property and with
`first_path` requested. -/
theorem C10_witness :
    shortest_distance_state badSr logFifoOps noStartFst (fun _ => true) 5
      (SdState.new false true) emptyFifo none =
      Except.ok ([], SdState.new false true, emptyFifo) :=
  C10_no_start_early_ok badSr logFifoOps noStartFst (fun _ => true) 5
    (SdState.new false true) emptyFifo none rfl

/- ---- C3 ---- -/

/-- C3 counterexample: the claim quantifies over every input automaton,
but on an automaton with no start state and a semiring lacking the
right-semiring property the call succeeds with an (empty) distance vector
instead of failing with the algebraic-precondition error. -/
theorem C3_counterexample :
    shortest_distance_state badSr logFifoOps noStartFst (fun _ => true) 5
      (SdState.new false false) emptyFifo none =
      Except.ok ([], SdState.new false false, emptyFifo) := by rfl

/-- C3 (amended): for every input automaton that has a start state, a
semiring not declaring the right-semiring property fails with the
algebraic-precondition error, and `first_path` with a semiring lacking the
path property fails likewise; the error carries no distance vector and is
raised before any queue or array operation. -/
theorem C3_amended_precondition_errors [DecidableEq W] (sr : SRing W)
    (qo : QueueOps Q) (fst : FstM W) (af : Arc W → Bool) (fuel : Nat)
    (st : SdState W) (q : Q) (source : Option Nat) (s : Nat)
    (hstart : fst.start = some s) :
    (sr.props.rightSemiring = false →
      shortest_distance_state sr qo fst af fuel st q source =
        Except.error "ShortestDistance: Weight needs to be right distributive") ∧
    (sr.props.rightSemiring = true → st.first_path = true →
      sr.props.path = false →
      shortest_distance_state sr qo fst af fuel st q source =
        Except.error "ShortestDistance: The first_path option is disallowed when Weight does not have the path property") := by
  constructor
  · intro hr
    simp only [shortest_distance_state, hstart, hr]
    rfl
  · intro hr hfp hp
    simp only [shortest_distance_state, hstart, hr, hfp, hp]
    rfl

/-- Witness for the amended C3 on the worked 3-state example (which has a
start state): once with the property-free integer weight, once with the
standard integer weight and `first_path` requested. -/
theorem C3_witness :
    (shortest_distance_state badSr logFifoOps fst3 (fun _ => true) 5
        (SdState.new false false) emptyFifo none =
      Except.error "ShortestDistance: Weight needs to be right distributive") ∧
    (shortest_distance_state intSr logFifoOps fst3 (fun _ => true) 5
        (SdState.new false true) emptyFifo none =
      Except.error "ShortestDistance: The first_path option is disallowed when Weight does not have the path property") :=
  ⟨(C3_amended_precondition_errors badSr logFifoOps fst3 (fun _ => true) 5
      (SdState.new false false) emptyFifo none 0 rfl).1 rfl,
   (C3_amended_precondition_errors intSr logFifoOps fst3 (fun _ => true) 5
      (SdState.new false true) emptyFifo none 0 rfl).2 rfl rfl rfl⟩

/- ---- C2 ---- -/

/-- C2 evidence: running the engine on the diamond `0→1, 0→2, 1→2` (unit
weights, integer semiring, FIFO discipline) produces the queue-operation
log `[enq 0, deq 0, enq 1, enq 2, deq 1, enq 2, deq 2, deq 2]`: when the
arc `1→2` improves state 2, state 2 is still pending (it was enqueued and
not yet dequeued), yet the engine calls `enqueue(2)` a second time — and
later dequeues it twice — instead of calling the discipline's `update`,
because the source tests `enqueued[state]` rather than
`enqueued[nextstate]`. -/
theorem C2_enqueued_state_bug :
    (shortest_distance_state intSr logFifoOps fstB (fun _ => true) 10
        (SdState.new false false) emptyFifo none).toOption.map
      (fun p => (p.1, p.2.2.ops)) =
    some ([1, 1, 2],
      [QOp.enq 0, QOp.deq 0, QOp.enq 1, QOp.enq 2, QOp.deq 1,
       QOp.enq 2, QOp.deq 2, QOp.deq 2]) := by rfl

/- ---- C7 ---- -/

/-- C7: in retained mode the four per-state arrays survive between runs
(the clearing block is a no-op), and the lazy per-state reset driven by the
`sources` run tag zeroes a state's `distance`, `adder`, `radder` and
`enqueued` entries exactly when the tag differs from the current run id —
tagging the state so that later touches in the same run leave it alone —
and is the identity on a state already tagged with the current run. -/
theorem C7_retained_lazy_reset (sr : SRing W) (st : SdState W) (s : Nat)
    (hret : st.retain = true) :
    clearIfNotRetain st = st ∧
    (st.sources.getD s none ≠ some st.source_id →
      s < st.distance.length → s < st.adder.length → s < st.radder.length →
      s < st.enqueued.length →
      ((touchRetained sr st s).distance.getD s sr.one = sr.zero ∧
       (touchRetained sr st s).adder.getD s sr.one = sr.zero ∧
       (touchRetained sr st s).radder.getD s sr.one = sr.zero ∧
       (touchRetained sr st s).enqueued.getD s true = false ∧
       (touchRetained sr st s).sources.getD s none = some st.source_id)) ∧
    (st.sources.getD s none = some st.source_id → touchRetained sr st s = st) := by
  obtain ⟨enq, dist, add, rad, srcs, sid, ret, fp⟩ := st
  simp only at hret
  subst hret
  refine ⟨by simp [clearIfNotRetain], ?_, ?_⟩
  · intro htag h1 h2 h3 h4
    simp only at htag h1 h2 h3 h4
    have hcond : (ensureLen srcs s none).getD s none ≠ some sid := by
      rw [ensureLen_getD]
      exact htag
    simp only [touchRetained, ensure_sources_index_is_valid, if_true]
    rw [if_pos hcond]
    refine ⟨?_, ?_, ?_, ?_, ?_⟩
    · exact getD_set_self _ _ _ _ h1
    · exact getD_set_self _ _ _ _ h2
    · exact getD_set_self _ _ _ _ h3
    · exact getD_set_self _ _ _ _ h4
    · exact getD_set_self _ _ _ _ (lt_ensureLen_length _ _ _)
  · intro htag
    simp only at htag
    have hlt : s < srcs.length := by
      by_contra hge
      push_neg at hge
      rw [getD_eq_of_ge _ _ _ hge] at htag
      exact Option.noConfusion htag
    simp only [touchRetained, ensure_sources_index_is_valid, if_true,
      ensureLen_of_lt _ _ _ hlt]
    rw [if_neg (not_not_intro htag)]

/-- Witness for C7 on a concrete one-state retained engine in run 1 whose
state 0 is still tagged by run 0: its entries are reset to zero and tagged. -/
theorem C7_witness :
    clearIfNotRetain st7 = st7 ∧
    ((touchRetained intSr st7 0).distance.getD 0 1 = 0 ∧
     (touchRetained intSr st7 0).adder.getD 0 1 = 0 ∧
     (touchRetained intSr st7 0).radder.getD 0 1 = 0 ∧
     (touchRetained intSr st7 0).enqueued.getD 0 true = false ∧
     (touchRetained intSr st7 0).sources.getD 0 none = some 1) :=
  ⟨(C7_retained_lazy_reset intSr st7 0 rfl).1,
   (C7_retained_lazy_reset intSr st7 0 rfl).2.1 (by decide) (by decide)
     (by decide) (by decide) (by decide)⟩

/- ---- C8 ---- -/

/-- Behaviour of `set_state` on a changed context, written out as the record it
produces. -/
theorem set_state_changed (fst2 : FstM W) (f : AltSeqFilter) (s1 s2 : Nat)
    (fs : CharFilterState) (h : ¬(f.s1 = s1 ∧ f.s2 = s2 ∧ f.fs = fs)) :
    set_state fst2 f s1 s2 fs =
      { s1 := s1, s2 := s2, fs := fs,
        alleps2 := decide (fst2.num_arcs s2 = fst2.num_output_epsilons s2)
          && !fst2.is_final s2,
        noeps2 := decide (fst2.num_output_epsilons s2 = 0) } := by
  unfold set_state
  rw [if_pos]
  simp only [Bool.not_eq_true', Bool.and_eq_true, decide_eq_true_eq]
  by_contra hb
  simp only [Bool.not_eq_false, Bool.and_eq_true, decide_eq_true_eq] at hb
  exact h ⟨hb.1.1, hb.1.2, hb.2⟩

/-- C8: when the `(s1, s2, filter_state)` context differs from the
recorded one, `set_state` recomputes the derived booleans so that
`alleps2` holds exactly when every outgoing arc of `fst2` at `s2` is an
output-epsilon and `s2` is non-final, and `noeps2` holds exactly when
`s2` has no output-epsilon outgoing arc; an unchanged context is a
no-op. -/
theorem C8_set_state_recompute (fst2 : FstM W) (f : AltSeqFilter)
    (s1 s2 : Nat) (fs : CharFilterState) :
    (¬(f.s1 = s1 ∧ f.s2 = s2 ∧ f.fs = fs) →
      (((set_state fst2 f s1 s2 fs).alleps2 = true ↔
        ((∀ a ∈ fst2.arcs s2, a.olabel = EPS_LABEL) ∧
          fst2.finalWeight s2 = none)) ∧
       ((set_state fst2 f s1 s2 fs).noeps2 = true ↔
        ∀ a ∈ fst2.arcs s2, a.olabel ≠ EPS_LABEL))) ∧
    ((f.s1 = s1 ∧ f.s2 = s2 ∧ f.fs = fs) → set_state fst2 f s1 s2 fs = f) := by
  constructor
  · intro hch
    rw [set_state_changed fst2 f s1 s2 fs hch]
    constructor
    · show (decide (fst2.num_arcs s2 = fst2.num_output_epsilons s2)
          && !fst2.is_final s2) = true ↔ _
      rw [Bool.and_eq_true, decide_eq_true_eq, Bool.not_eq_true']
      unfold FstM.num_arcs FstM.num_output_epsilons FstM.is_final
      rw [eq_comm, List.filter_length_eq_length]
      constructor
      · rintro ⟨hall, hfin⟩
        refine ⟨fun a ha => by simpa using hall a ha, ?_⟩
        cases hfw : fst2.finalWeight s2
        · rfl
        · rw [hfw] at hfin
          simp at hfin
      · rintro ⟨hall, hnone⟩
        refine ⟨fun a ha => by simpa using hall a ha, ?_⟩
        rw [hnone]
        rfl
    · show decide (fst2.num_output_epsilons s2 = 0) = true ↔ _
      rw [decide_eq_true_eq]
      unfold FstM.num_output_epsilons
      rw [List.length_eq_zero, List.filter_eq_nil_iff]
      simp
  · rintro ⟨h1, h2, h3⟩
    simp [set_state, h1, h2, h3]

/-- A two-state right-hand automaton: state 2 has one output-epsilon arc
and one non-epsilon arc, and is non-final. -/
def fst2w : FstM Int :=
  { start := some 0
    arcs := fun s => if s = 2 then [Arc.mk 1 0 1 0, Arc.mk 1 3 1 0] else []
    finalWeight := fun _ => none }

/-- A filter context recording `(7, 7, invalid)`. -/
def f0 : AltSeqFilter :=
  { s1 := 7, s2 := 7, fs := CharFilterState.invalid,
    alleps2 := false, noeps2 := false }

/-- Witness for C8: a changed-context call recomputes the booleans (on a
state with one epsilon and one non-epsilon arc both iffs apply), and the
unchanged-context call returns the filter untouched. -/
theorem C8_witness :
    (((set_state fst2w f0 0 2 (CharFilterState.valid 0)).alleps2 = true ↔
        ((∀ a ∈ fst2w.arcs 2, a.olabel = EPS_LABEL) ∧
          fst2w.finalWeight 2 = none)) ∧
     ((set_state fst2w f0 0 2 (CharFilterState.valid 0)).noeps2 = true ↔
        ∀ a ∈ fst2w.arcs 2, a.olabel ≠ EPS_LABEL)) ∧
    set_state fst2w f0 7 7 CharFilterState.invalid = f0 :=
  ⟨(C8_set_state_recompute fst2w f0 0 2 (CharFilterState.valid 0)).1
      (by decide),
   (C8_set_state_recompute fst2w f0 7 7 CharFilterState.invalid).2
      (by decide)⟩

/- ---- C4 ---- -/

/-- C4: `filter_arc` of the alternating-sequence filter coincides with the
spec's stated policy on every candidate arc pair and every filter
context. -/
theorem C4_filter_arc_matches_policy (f : AltSeqFilter) (arc1 arc2 : Arc W) :
    filter_arc f arc1 arc2 = specAltSequencePolicy f arc1 arc2 := by
  unfold filter_arc specAltSequencePolicy CharFilterState.new
  by_cases h1 : arc1.olabel = NO_LABEL <;>
    by_cases h2 : arc2.ilabel = NO_LABEL <;>
    by_cases h3 : f.fs = CharFilterState.valid 0 <;>
    simp [h1, h2, h3]

/- ---- C6 ---- -/

/-- C6: `compute_final` yields a final weight exactly when both
originating states are final, and then the weight is the left-then-right
semiring product of the two final weights after the `filter_final`
adjustment; otherwise the product state is non-final. -/
theorem C6_compute_final_rule [DecidableEq FS] (sr : SRing W)
    (ff : W → W → W × W) (final1 final2 : Nat → Option W)
    (table : List (ComposeStateTuple FS)) (state : Nat)
    (tuple : ComposeStateTuple FS) (h : table.get? state = some tuple) :
    (compute_final sr ff final1 final2 table state = some none ↔
      (final1 tuple.s1 = none ∨ final2 tuple.s2 = none)) ∧
    (∀ f1 f2, final1 tuple.s1 = some f1 → final2 tuple.s2 = some f2 →
      compute_final sr ff final1 final2 table state =
        some (some (sr.times (ff f1 f2).1 (ff f1 f2).2))) := by
  rw [List.get?_eq_getElem?] at h
  constructor
  · cases h1 : final1 tuple.s1 <;> cases h2 : final2 tuple.s2 <;>
      simp [compute_final, h, h1, h2]
  · intro f1 f2 h1 h2
    simp [compute_final, h, h1, h2]

/-- Witness for C6 on a one-entry state table: final weights 3 and 4 with
the identity adjustment give the product final weight 12, and with a
non-final right side the product state is non-final. -/
theorem C6_witness :
    compute_final intSr (fun a b => (a, b))
      (fun s => if s = 1 then some (3 : Int) else none)
      (fun s => if s = 2 then some (4 : Int) else none)
      [({ fs := 0, s1 := 1, s2 := 2 } : ComposeStateTuple Nat)] 0 =
      some (some 12) ∧
    compute_final intSr (fun a b => (a, b))
      (fun s => if s = 1 then some (3 : Int) else none)
      (fun _ => none)
      [({ fs := 0, s1 := 1, s2 := 2 } : ComposeStateTuple Nat)] 0 =
      some none :=
  ⟨by simpa using
      (C6_compute_final_rule intSr (fun a b => (a, b))
        (fun s => if s = 1 then some (3 : Int) else none)
        (fun s => if s = 2 then some (4 : Int) else none)
        [({ fs := 0, s1 := 1, s2 := 2 } : ComposeStateTuple Nat)] 0
        { fs := 0, s1 := 1, s2 := 2 } rfl).2 3 4 rfl rfl,
   (C6_compute_final_rule intSr (fun a b => (a, b))
        (fun s => if s = 1 then some (3 : Int) else none)
        (fun _ => none)
        [({ fs := 0, s1 := 1, s2 := 2 } : ComposeStateTuple Nat)] 0
        { fs := 0, s1 := 1, s2 := 2 } rfl).1.mpr (Or.inr rfl)⟩

/- ---- C9 ---- -/

/-- C9: `compute_start` returns no start id exactly when one of the two
inputs lacks a start state; otherwise it returns the id `find_id`
registers for `(filter.start(), start1, start2)`, and when that tuple was
seen before the table is left unchanged and the returned id points at the
existing entry. -/
theorem C9_compute_start_rule [DecidableEq FS] (fs : FS)
    (start1 start2 : Option Nat) (table : List (ComposeStateTuple FS)) :
    ((compute_start fs start1 start2 table).1 = none ↔
      start1 = none ∨ start2 = none) ∧
    (∀ s1 s2, start1 = some s1 → start2 = some s2 →
      compute_start fs start1 start2 table =
        (some (find_id table { fs := fs, s1 := s1, s2 := s2 }).1,
          (find_id table { fs := fs, s1 := s1, s2 := s2 }).2) ∧
      (({ fs := fs, s1 := s1, s2 := s2 } : ComposeStateTuple FS) ∈ table →
        (find_id table { fs := fs, s1 := s1, s2 := s2 }).2 = table ∧
        table.get? (find_id table { fs := fs, s1 := s1, s2 := s2 }).1 =
          some { fs := fs, s1 := s1, s2 := s2 })) := by
  constructor
  · cases start1 <;> cases start2 <;> simp [compute_start]
  · intro s1 s2 h1 h2
    subst h1
    subst h2
    refine ⟨rfl, ?_⟩
    intro hmem
    cases hidx : tupleIndex table ({ fs := fs, s1 := s1, s2 := s2 } :
        ComposeStateTuple FS) with
    | none => exact absurd hidx (tupleIndex_ne_none _ _ hmem)
    | some i =>
      refine ⟨by simp [find_id, hidx], ?_⟩
      simp only [find_id, hidx]
      exact tupleIndex_get _ _ _ hidx

/-- Witness for C9: a missing left start yields no start id, and on a
table already holding the tuple `(5, 1, 2)` the existing id 0 is reused
with the table unchanged. -/
theorem C9_witness :
    (compute_start (5 : Nat) none (some 2)
        [({ fs := 5, s1 := 1, s2 := 2 } : ComposeStateTuple Nat)]).1 = none ∧
    compute_start (5 : Nat) (some 1) (some 2)
        [({ fs := 5, s1 := 1, s2 := 2 } : ComposeStateTuple Nat)] =
      (some (find_id [({ fs := 5, s1 := 1, s2 := 2 } : ComposeStateTuple Nat)]
          { fs := 5, s1 := 1, s2 := 2 }).1,
        (find_id [({ fs := 5, s1 := 1, s2 := 2 } : ComposeStateTuple Nat)]
          { fs := 5, s1 := 1, s2 := 2 }).2) ∧
    (find_id [({ fs := 5, s1 := 1, s2 := 2 } : ComposeStateTuple Nat)]
        { fs := 5, s1 := 1, s2 := 2 }).2 =
      [({ fs := 5, s1 := 1, s2 := 2 } : ComposeStateTuple Nat)] ∧
    [({ fs := 5, s1 := 1, s2 := 2 } : ComposeStateTuple Nat)].get?
        (find_id [({ fs := 5, s1 := 1, s2 := 2 } : ComposeStateTuple Nat)]
          { fs := 5, s1 := 1, s2 := 2 }).1 =
      some { fs := 5, s1 := 1, s2 := 2 } :=
  ⟨(C9_compute_start_rule (5 : Nat) none (some 2)
      [{ fs := 5, s1 := 1, s2 := 2 }]).1.mpr (Or.inl rfl),
   ((C9_compute_start_rule (5 : Nat) (some 1) (some 2)
      [{ fs := 5, s1 := 1, s2 := 2 }]).2 1 2 rfl rfl).1,
   ((C9_compute_start_rule (5 : Nat) (some 1) (some 2)
      [{ fs := 5, s1 := 1, s2 := 2 }]).2 1 2 rfl rfl).2 (by decide)⟩

/- ---- C1 ---- -/

/-- C1 evidence: at a concrete driving arc `(1, 2, 3, 4)` whose matcher
lookup returns the partner `(9, 5, 7, 8)`, `match_arc` appends the arc
`(1, 2, 9, id-of (0, 4, 4))` — input label, output label, squared weight
and destination all taken from the driving arc alone — instead of the
matched composition `(1, 5, 21, id-of (0, 4, 8))`, because the source
shadows the matcher's arc with clones of the driving arc before
`filter_arc`/`add_arc`. -/
theorem C1_partner_arc_shadowed :
    match_arc intSr (fun _ _ => some (0 : Nat)) (fun _ _ => [Arc.mk 9 5 7 8])
      ({ state_table := [], cache := [[]] } : ComposeImplState Int Nat)
      0 10 (Arc.mk 1 2 3 4) false =
      { state_table := [{ fs := 0, s1 := 4, s2 := 4 }],
        cache := [[Arc.mk 1 2 9 0]] } := by rfl
